import Mathlib

/-!
Verification of the TimeCamp data-pipeline core against its specification.

Shallow embedding of the Python sources:
  * `src/fetch_timecamp_data.py`   — incremental fetch, dedup, user enrichment
  * `src/fetch_computer_time_data.py` — activity enrichment, breadcrumb walk
  * `src/common/api.py`            — HTTP retry loop, batching, application cache
  * `src/destination_googlebigquery.py` — schema check and stage-then-merge load

Dict-shaped JSON records are modelled as structures carrying the fields the
logic under verification reads or writes, plus an opaque `payload` field
standing for the rest of the record.  Python dicts used as key-value maps are
modelled either as association lists (when iteration order matters) or as
functions into `Option` (when only lookup matters).  Remote HTTP endpoints are
abstract function parameters.
-/

namespace Timecamp

/-- Time entry record as handled by `fetch_timecamp_data.py`.  `id` is
`entry.get('id')` (absent key gives `none`), `last_modify` is
`entry.get('last_modify', '')`; `payload` stands for all remaining fields. -/
structure TimeEntry where
  id : Option Int
  last_modify : String
  payload : String
deriving DecidableEq

/-- Worker loop of the dedup pass in `main` (src/fetch_timecamp_data.py
lines 503-511): `seen` is the `seen_ids` set, an entry is kept iff its id has
not been seen, and a kept entry's id is added to the set. -/
def removeDupGo (seen : List (Option Int)) : List TimeEntry → List TimeEntry
  | [] => []
  | e :: rest =>
    if e.id ∈ seen then removeDupGo seen rest
    else e :: removeDupGo (e.id :: seen) rest

/-- Deduplication by entry id, first occurrence wins, as in `main`
(src/fetch_timecamp_data.py lines 503-511). -/
def removeDuplicates (entries : List TimeEntry) : List TimeEntry :=
  removeDupGo [] entries

theorem removeDupGo_filter (i : Option Int) :
    ∀ (entries : List TimeEntry) (seen : List (Option Int)),
      (removeDupGo seen entries).filter (fun e => e.id = i) =
        if i ∈ seen then [] else (entries.find? (fun e => e.id = i)).toList := by
  intro entries
  induction entries with
  | nil =>
    intro seen
    by_cases h : i ∈ seen <;> simp [removeDupGo, h]
  | cons e rest ih =>
    intro seen
    by_cases hseen : e.id ∈ seen
    · rw [removeDupGo, if_pos hseen, ih seen]
      by_cases hi : i ∈ seen
      · simp [hi]
      · have hne : ¬ (e.id = i) := by
          intro h
          exact hi (h ▸ hseen)
        simp [hi, List.find?_cons, hne]
    · rw [removeDupGo, if_neg hseen]
      by_cases hid : e.id = i
      · subst hid
        simp [List.filter_cons, List.find?_cons, ih (e.id :: seen), hseen]
      · by_cases hi : i ∈ seen
        · simp [List.filter_cons, List.find?_cons, ih (e.id :: seen), hid, hi]
        · have hi2 : i ∉ (e.id :: seen) := by
            intro h
            rcases List.mem_cons.mp h with h1 | h1
            · exact hid h1.symm
            · exact hi h1
          simp [List.filter_cons, List.find?_cons, ih (e.id :: seen), hid, hi, hi2]

theorem removeDupGo_sublist :
    ∀ (entries : List TimeEntry) (seen : List (Option Int)),
      (removeDupGo seen entries).Sublist entries := by
  intro entries
  induction entries with
  | nil => intro seen; simp [removeDupGo]
  | cons e rest ih =>
    intro seen
    by_cases hseen : e.id ∈ seen
    · rw [removeDupGo, if_pos hseen]
      exact (ih seen).cons e
    · rw [removeDupGo, if_neg hseen]
      exact (ih (e.id :: seen)).cons₂ e

/-- C1: for every fetched list of entries, the dedup pass keeps, for each
distinct record id, exactly the first entry carrying that id in iteration
order (so the output restricted to any id equals the list containing just the
first occurrence, and is empty when the id never occurs), and the output is a
subsequence of the input (nothing is reordered or invented; every later
duplicate is discarded). -/
theorem C1_dedup_keeps_first_occurrence (entries : List TimeEntry) (i : Option Int) :
    (removeDuplicates entries).filter (fun e => e.id = i) =
      (entries.find? (fun e => e.id = i)).toList ∧
    (removeDuplicates entries).Sublist entries := by
  constructor
  · rw [removeDuplicates, removeDupGo_filter i entries []]
    simp
  · exact removeDupGo_sublist entries []

/-- Group node of the `people_picker` payload, as read by `get_breadcrumb_path`
(src/fetch_computer_time_data.py lines 198-226, identical logic in
src/fetch_timecamp_data.py lines 298-322): `name` is `group.get('name', '')`
and `parent_id` is `group.get('parent_id')` (`none` when absent). -/
structure GroupData where
  name : String
  parent_id : Option String
deriving DecidableEq

/-- Lookup in the `groups_data` dict, modelled as an association list. -/
def lookupGroup : List (String × GroupData) → String → Option GroupData
  | [], _ => none
  | (k, g) :: rest, gid => if k = gid then some g else lookupGroup rest gid

/-- Python `group_id.startswith('g')`. -/
def startsWithG (s : String) : Bool :=
  match s.data with
  | [] => false
  | c :: _ => decide (c = 'g')

/-- Python `group_id[1:]`. -/
def dropFirstChar (s : String) : String :=
  ⟨s.data.drop 1⟩

/-- Python `not parent_id or parent_id == "0"`: a missing, empty or `"0"`
parent reference marks a root group. -/
def isRootParent : Option String → Bool
  | none => true
  | some p => decide (p = "" ∨ p = "0")

/-- Id-resolution prelude of `get_breadcrumb_path`
(src/fetch_computer_time_data.py lines 199-212): a direct hit keeps the id;
otherwise, when the id starts with `'g'` the code strips the prefix and then
looks up `f"g{group_id_no_prefix}"` (which re-adds the prefix), and when it
does not start with `'g'` it looks up `f"g{group_id}"`; a second miss means
the group is unknown (`none`, making the walk return the empty sequence). -/
def resolveGroupId (groups : List (String × GroupData)) (gid : String) : Option String :=
  if (lookupGroup groups gid).isSome then some gid
  else if startsWithG gid then
    let stripped := dropFirstChar gid
    if (lookupGroup groups ("g" ++ stripped)).isSome then some ("g" ++ stripped) else none
  else if (lookupGroup groups ("g" ++ gid)).isSome then some ("g" ++ gid) else none

/-- Recursive breadcrumb walk of `get_breadcrumb_path`
(src/fetch_computer_time_data.py lines 198-226): resolve the id, read the
group, stop with `[name]` at a root parent, otherwise recurse on the parent id
(prefixed with `'g'` when it lacks the prefix) and append the group's name.
The Python recursion carries no depth bound; the `fuel` argument makes the
embedding total, with `none` meaning the recursion did not finish within
`fuel` nested calls (for any fuel), i.e. non-termination of the source. -/
def getBreadcrumbPath (groups : List (String × GroupData)) : Nat → String → Option (List String)
  | 0, _ => none
  | fuel + 1, gid =>
    match resolveGroupId groups gid with
    | none => some []
    | some rid =>
      match lookupGroup groups rid with
      | none => some []
      | some g =>
        match g.parent_id with
        | none => some [g.name]
        | some p =>
          if p = "" ∨ p = "0" then some [g.name]
          else
            let pid := if startsWithG p then p else "g" ++ p
            (getBreadcrumbPath groups fuel pid).map (fun pp => pp ++ [g.name])

/-- Group map with a single root group stored under the unprefixed id `"5"`,
used to exercise the prefixed lookup `"g5"`. -/
def strippedKeyGroups : List (String × GroupData) :=
  [("5", ⟨"Root", some "0"⟩)]

/-- C2: the claimed prefix toggle does not happen in the removal direction.
With the map `{"5": root group "Root"}`, the direct lookup of `"g5"` fails and
the code retries `f"g{group_id_no_prefix}"` — the same prefixed id again — so
it declares the group unknown and returns the empty sequence, even though the
toggled id `"5"` is present and resolves to `["Root"]`. -/
theorem C2_prefix_toggle_removal_is_dead :
    getBreadcrumbPath strippedKeyGroups 10 "g5" = some [] ∧
    lookupGroup strippedKeyGroups "5" = some ⟨"Root", some "0"⟩ ∧
    getBreadcrumbPath strippedKeyGroups 10 "5" = some ["Root"] ∧
    resolveGroupId strippedKeyGroups "g5" = none := by
  refine ⟨?_, rfl, ?_, ?_⟩ <;> decide

/-- Two groups whose `parent_id` references form a cycle. -/
def cyclicGroups : List (String × GroupData) :=
  [("g1", ⟨"A", some "2"⟩), ("g2", ⟨"B", some "1"⟩)]

theorem cyclicGroups_unfold_g1 (n : Nat) :
    getBreadcrumbPath cyclicGroups (n + 1) "g1" =
      (getBreadcrumbPath cyclicGroups n "g2").map (fun pp => pp ++ ["A"]) := rfl

theorem cyclicGroups_unfold_g2 (n : Nat) :
    getBreadcrumbPath cyclicGroups (n + 1) "g2" =
      (getBreadcrumbPath cyclicGroups n "g1").map (fun pp => pp ++ ["B"]) := rfl

/-- C5: the breadcrumb walk does not terminate on a cyclic parent graph.  On
the two-group cycle `g1 -> g2 -> g1`, no amount of fuel lets the recursion
reach a root: the walk runs forever in the source (no depth guard exists). -/
theorem C5_breadcrumb_diverges_on_cycle (fuel : Nat) :
    getBreadcrumbPath cyclicGroups fuel "g1" = none ∧
    getBreadcrumbPath cyclicGroups fuel "g2" = none := by
  induction fuel with
  | zero => exact ⟨rfl, rfl⟩
  | succ n ih =>
    constructor
    · rw [cyclicGroups_unfold_g1 n, ih.2]
      rfl
    · rw [cyclicGroups_unfold_g2 n, ih.1]
      rfl

/-- Root-to-leaf ancestor-name chain of a group: `Ancestry groups gid path`
states that the parent walk from `gid` resolves every hop by direct lookup
(after the source's `'g'`-prefixing of unprefixed parent ids), reaches a root
without cycling, and visits groups whose names, root first, are `path`. -/
inductive Ancestry (groups : List (String × GroupData)) : String → List String → Prop where
  | root (gid : String) (g : GroupData)
      (hg : lookupGroup groups gid = some g)
      (hr : isRootParent g.parent_id = true) :
      Ancestry groups gid [g.name]
  | step (gid : String) (g : GroupData) (p : String) (path : List String)
      (hg : lookupGroup groups gid = some g)
      (hp : g.parent_id = some p)
      (hne : p ≠ "") (hnz : p ≠ "0")
      (hpar : Ancestry groups (if startsWithG p then p else "g" ++ p) path) :
      Ancestry groups gid (path ++ [g.name])

/-- Depth of a group in the group forest: 1 for a root group, one more than
the parent's depth otherwise (same resolvability side conditions as
`Ancestry`). -/
inductive GroupDepth (groups : List (String × GroupData)) : String → Nat → Prop where
  | root (gid : String) (g : GroupData)
      (hg : lookupGroup groups gid = some g)
      (hr : isRootParent g.parent_id = true) :
      GroupDepth groups gid 1
  | step (gid : String) (g : GroupData) (p : String) (d : Nat)
      (hg : lookupGroup groups gid = some g)
      (hp : g.parent_id = some p)
      (hne : p ≠ "") (hnz : p ≠ "0")
      (hpar : GroupDepth groups (if startsWithG p then p else "g" ++ p) d) :
      GroupDepth groups gid (d + 1)

theorem getBreadcrumbPath_succ_of_lookup
    (groups : List (String × GroupData)) (fuel : Nat) (gid : String) (g : GroupData)
    (hg : lookupGroup groups gid = some g) :
    getBreadcrumbPath groups (fuel + 1) gid =
      match g.parent_id with
      | none => some [g.name]
      | some p =>
        if p = "" ∨ p = "0" then some [g.name]
        else
          (getBreadcrumbPath groups fuel (if startsWithG p then p else "g" ++ p)).map
            (fun pp => pp ++ [g.name]) := by
  have hres : resolveGroupId groups gid = some gid := by
    unfold resolveGroupId
    rw [hg]
    simp
  simp only [getBreadcrumbPath, hres, hg]

theorem getBreadcrumbPath_of_ancestry
    (groups : List (String × GroupData)) (gid : String) (path : List String)
    (h : Ancestry groups gid path) :
    ∀ fuel, path.length ≤ fuel → getBreadcrumbPath groups fuel gid = some path := by
  induction h with
  | root gid g hg hr =>
    intro fuel hf
    obtain ⟨m, rfl⟩ : ∃ m, fuel = m + 1 := by
      cases fuel with
      | zero => simp at hf
      | succ m => exact ⟨m, rfl⟩
    rw [getBreadcrumbPath_succ_of_lookup groups m gid g hg]
    cases hpid : g.parent_id with
    | none => rfl
    | some p =>
      have hor : p = "" ∨ p = "0" := by
        rw [hpid] at hr
        simpa [isRootParent] using hr
      simp [hor]
  | step gid g p path hg hpid hne hnz hpar ih =>
    intro fuel hf
    obtain ⟨m, rfl⟩ : ∃ m, fuel = m + 1 := by
      cases fuel with
      | zero => simp at hf
      | succ m => exact ⟨m, rfl⟩
    have hm : path.length ≤ m := by
      have := hf
      simp only [List.length_append, List.length_singleton] at this
      omega
    have hor : ¬ (p = "" ∨ p = "0") := by
      rintro (h | h)
      · exact hne h
      · exact hnz h
    rw [getBreadcrumbPath_succ_of_lookup groups m gid g hg]
    simp only [hpid]
    rw [if_neg hor, ih m hm]
    rfl

theorem ancestry_length_eq_depth
    (groups : List (String × GroupData)) (gid : String) (path : List String)
    (hA : Ancestry groups gid path) :
    ∀ d, GroupDepth groups gid d → path.length = d := by
  induction hA with
  | root gid g hg hr =>
    intro d hD
    cases hD with
    | root gid' g' hg' hr' => simp
    | step gid' g' p d' hg' hp' hne' hnz' hpar' =>
      rw [hg] at hg'
      injection hg' with h
      subst h
      rw [hp'] at hr
      simp only [isRootParent, decide_eq_true_eq] at hr
      rcases hr with h | h
      · exact absurd h hne'
      · exact absurd h hnz'
  | step gid g p path hg hpid hne hnz hpar ih =>
    intro d hD
    cases hD with
    | root gid' g' hg' hr' =>
      rw [hg] at hg'
      injection hg' with h
      subst h
      rw [hpid] at hr'
      simp only [isRootParent, decide_eq_true_eq] at hr'
      rcases hr' with h | h
      · exact absurd h hne
      · exact absurd h hnz
    | step gid' g' p' d' hg' hp' hne' hnz' hpar' =>
      rw [hg] at hg'
      injection hg' with h
      subst h
      rw [hpid] at hp'
      injection hp' with h
      subst h
      have hlen := ih d' hpar'
      simp [hlen]

theorem ancestry_root_clause
    (groups : List (String × GroupData)) (gid : String) (path : List String)
    (hA : Ancestry groups gid path) (g : GroupData)
    (hg : lookupGroup groups gid = some g)
    (hr : isRootParent g.parent_id = true) :
    path = [g.name] := by
  cases hA with
  | root gid' g0 hg0 hr0 =>
    rw [hg] at hg0
    injection hg0 with h
    rw [h]
  | step gid' g0 p path0 hg0 hp0 hne0 hnz0 hpar0 =>
    rw [hg] at hg0
    injection hg0 with h
    subst h
    rw [hp0] at hr
    simp only [isRootParent, decide_eq_true_eq] at hr
    rcases hr with h | h
    · exact absurd h hne0
    · exact absurd h hnz0

/-- C6: on a cycle-free group forest whose parent references all resolve
(captured by an `Ancestry` chain for `gid`), the breadcrumb walk returns
exactly the ancestor names in root-to-leaf order, the returned sequence's
length equals the depth of the group in the forest, and for a root group
(parent absent, empty or `"0"`) it is the single-element sequence holding
that group's name. -/
theorem C6_breadcrumb_correct_on_forest
    (groups : List (String × GroupData)) (gid : String) (path : List String)
    (d fuel : Nat) (g : GroupData)
    (hA : Ancestry groups gid path) (hD : GroupDepth groups gid d)
    (hf : path.length ≤ fuel) (hg : lookupGroup groups gid = some g) :
    getBreadcrumbPath groups fuel gid = some path ∧
    path.length = d ∧
    (isRootParent g.parent_id = true → path = [g.name]) :=
  ⟨getBreadcrumbPath_of_ancestry groups gid path hA fuel hf,
   ancestry_length_eq_depth groups gid path hA d hD,
   fun hr => ancestry_root_clause groups gid path hA g hg hr⟩

/-- Two-level group forest: root `g1` named `A`, child `g2` named `B` whose
parent reference `"1"` lacks the `'g'` prefix (as in the API payload). -/
def twoLevelGroups : List (String × GroupData) :=
  [("g1", ⟨"A", none⟩), ("g2", ⟨"B", some "1"⟩)]

/-- Closed witness for C6: on `twoLevelGroups`, the child `g2` at depth 2
yields the root-to-leaf breadcrumb `["A", "B"]`, and the root `g1` at depth 1
yields the singleton `["A"]`. -/
theorem C6_breadcrumb_correct_on_forest_witness :
    getBreadcrumbPath twoLevelGroups 5 "g2" = some ["A", "B"] ∧
    getBreadcrumbPath twoLevelGroups 5 "g1" = some ["A"] := by
  have hnorm : (if startsWithG "1" then "1" else "g" ++ "1") = "g1" := by decide
  have hrootA : Ancestry twoLevelGroups "g1" ["A"] :=
    Ancestry.root "g1" ⟨"A", none⟩ rfl rfl
  have hrootD : GroupDepth twoLevelGroups "g1" 1 :=
    GroupDepth.root "g1" ⟨"A", none⟩ rfl rfl
  have hparA : Ancestry twoLevelGroups (if startsWithG "1" then "1" else "g" ++ "1") ["A"] := by
    rw [hnorm]
    exact hrootA
  have hparD : GroupDepth twoLevelGroups (if startsWithG "1" then "1" else "g" ++ "1") 1 := by
    rw [hnorm]
    exact hrootD
  have hA : Ancestry twoLevelGroups "g2" ["A", "B"] :=
    Ancestry.step "g2" ⟨"B", some "1"⟩ "1" ["A"] rfl rfl (by decide) (by decide) hparA
  have hD : GroupDepth twoLevelGroups "g2" 2 :=
    GroupDepth.step "g2" ⟨"B", some "1"⟩ "1" 1 rfl rfl (by decide) (by decide) hparD
  exact ⟨(C6_breadcrumb_correct_on_forest twoLevelGroups "g2" ["A", "B"] 2 5
            ⟨"B", some "1"⟩ hA hD (by decide) rfl).1,
         (C6_breadcrumb_correct_on_forest twoLevelGroups "g1" ["A"] 1 5
            ⟨"A", none⟩ hrootA hrootD (by decide) rfl).1⟩

/-- HTTP response as seen by the retry loop: only the status code matters. -/
structure HttpResponse where
  status : Nat
deriving DecidableEq

/-- Outcome of a failed `_make_request` call: `httpError s` is the exception
`raise_for_status` / the re-raised `RequestException` carries for status `s`;
`retriesExhausted` is the final
`RequestException(f"Failed after {max_retries} retries")`. -/
inductive RequestError where
  | httpError (status : Nat)
  | retriesExhausted
deriving DecidableEq

/-- Base backoff delay of `_make_request` (`retry_delay = 5`). -/
def retryDelay : Nat := 5

/-- Retry loop body of `TimeCampAPI._make_request` (src/common/api.py lines
26-46).  `respond` maps each attempt index to the response the server gives;
the argument list is the remaining part of `range(max_retries)`.  A 429 on any
attempt but the last sleeps `retry_delay * (attempt + 1)` and retries (the
Python guard `attempt < max_retries - 1` is exactly "this is not the last
attempt"); `raise_for_status` returns the response for a status below 400 and
raises the HTTP error otherwise — including a 429 on the last attempt.  The
returned list records the backoff sleeps in order. -/
def runAttempts (respond : Nat → HttpResponse) :
    List Nat → Except RequestError HttpResponse × List Nat
  | [] => (Except.error RequestError.retriesExhausted, [])
  | a :: rest =>
    let r := respond a
    if r.status = 429 ∧ rest ≠ [] then
      let next := runAttempts respond rest
      (next.1, retryDelay * (a + 1) :: next.2)
    else if r.status < 400 then (Except.ok r, [])
    else (Except.error (RequestError.httpError r.status), [])

/-- `TimeCampAPI._make_request` with `max_retries = 5`: the loop runs over
`range(5)`; the trailing `raise RequestException("Failed after 5 retries")`
corresponds to exhausting the attempt list. -/
def makeRequest (respond : Nat → HttpResponse) :
    Except RequestError HttpResponse × List Nat :=
  runAttempts respond (List.range 5)

/-- Server that answers HTTP 429 on every attempt. -/
def always429 : Nat → HttpResponse := fun _ => ⟨429⟩

/-- C3 counterexample: when every one of the 5 attempts gets a 429, the loop
raises the last HTTP 429 error (via `raise_for_status` on the fifth attempt),
not the distinct "Failed after 5 retries" error — that final `raise` is
unreachable.  The backoff sleeps are `5, 10, 15, 20`. -/
theorem C3_exhaustion_raises_last_http_error :
    makeRequest always429 =
      (Except.error (RequestError.httpError 429), [5, 10, 15, 20]) ∧
    (Except.error (RequestError.httpError 429) :
        Except RequestError HttpResponse) ≠
      Except.error RequestError.retriesExhausted := by
  constructor
  · rfl
  · simp

/-- C3 (amended): each HTTP 429 on a non-final attempt is retried with linear
backoff `5 * (attempt + 1)`; the first non-429 response is surfaced
immediately (returned when its status is below 400, raised as an HTTP error
otherwise) after sleeps `5, 10, ..., 5*k`; and when all 5 attempts yield 429
the loop raises the last HTTP 429 error after sleeps `5, 10, 15, 20` — the
distinct "retry budget exceeded" error is never raised. -/
theorem C3_retry_budget_amended (respond : Nat → HttpResponse) (k : Nat) :
    (k < 5 → (∀ a, a < k → (respond a).status = 429) → (respond k).status ≠ 429 →
      makeRequest respond =
        (if (respond k).status < 400 then Except.ok (respond k)
         else Except.error (RequestError.httpError (respond k).status),
         (List.range k).map (fun a => 5 * (a + 1)))) ∧
    ((∀ a, a < 5 → (respond a).status = 429) →
      makeRequest respond = (Except.error (RequestError.httpError 429), [5, 10, 15, 20])) := by
  constructor
  · intro hk h429 hstop
    match k, hk with
    | 0, _ =>
      simp [makeRequest, runAttempts, retryDelay, List.range_succ, hstop]
      split <;> simp
    | 1, _ =>
      have h0 := h429 0 (by omega)
      simp [makeRequest, runAttempts, retryDelay, List.range_succ, h0, hstop]
      split <;> simp
    | 2, _ =>
      have h0 := h429 0 (by omega)
      have h1 := h429 1 (by omega)
      simp [makeRequest, runAttempts, retryDelay, List.range_succ, h0, h1, hstop]
      split <;> simp
    | 3, _ =>
      have h0 := h429 0 (by omega)
      have h1 := h429 1 (by omega)
      have h2 := h429 2 (by omega)
      simp [makeRequest, runAttempts, retryDelay, List.range_succ, h0, h1, h2, hstop]
      split <;> simp
    | 4, _ =>
      have h0 := h429 0 (by omega)
      have h1 := h429 1 (by omega)
      have h2 := h429 2 (by omega)
      have h3 := h429 3 (by omega)
      simp [makeRequest, runAttempts, retryDelay, List.range_succ, h0, h1, h2, h3, hstop]
      split <;> simp
  · intro h429
    have h0 := h429 0 (by omega)
    have h1 := h429 1 (by omega)
    have h2 := h429 2 (by omega)
    have h3 := h429 3 (by omega)
    have h4 := h429 4 (by omega)
    simp [makeRequest, runAttempts, retryDelay, List.range_succ, h0, h1, h2, h3, h4]

/-- Server that answers 429 on the first attempt and 500 afterwards. -/
def oneThrottleThen500 : Nat → HttpResponse := fun a => if a = 0 then ⟨429⟩ else ⟨500⟩

/-- Closed witness for the amended C3: one 429 then a 500 gives one backoff
sleep of 5 and surfaces the HTTP 500 error immediately. -/
theorem C3_retry_budget_amended_witness :
    makeRequest oneThrottleThen500 = (Except.error (RequestError.httpError 500), [5]) := by
  have h := (C3_retry_budget_amended oneThrottleThen500 1).1 (by omega)
    (by
      intro a ha
      have : a = 0 := by omega
      subst this
      rfl)
    (by decide)
  simpa using h

/-- Group assignment stored per user by the enrichment pre-pass
(`user_info[user_id]['groups'][group_id]`): the group's name and its
breadcrumb path. -/
structure GroupAssignment where
  group_name : String
  breadcrumb_path : List String
deriving DecidableEq

/-- Per-user record of the `user_info` lookup dict built by
`enrich_activities_with_user_details` (src/fetch_computer_time_data.py lines
175-242): email, display name, and the group-membership dict in insertion
order. -/
structure UserInfo where
  email : String
  display_name : String
  groups : List (String × GroupAssignment)
deriving DecidableEq

/-- Computer-activity record around the enrichment loop
(src/fetch_computer_time_data.py lines 244-273).  The enrichment fields are
`Option String`: `none` models the key being absent from the dict, `some s`
the key being present with value `s`. -/
structure Activity where
  user_id : Option String
  email : Option String
  display_name : Option String
  group_name : Option String
  group_breadcrumb_level_1 : Option String
  group_breadcrumb_level_2 : Option String
  group_breadcrumb_level_3 : Option String
  group_breadcrumb_level_4 : Option String
  payload : String
deriving DecidableEq

/-- Default branch of the enrichment loop ("Default values if user not
found", src/fetch_computer_time_data.py lines 267-273): every enrichment
field is set to the empty string. -/
def setDefaultEnrichment (a : Activity) : Activity :=
  { a with
    email := some "", display_name := some "", group_name := some "",
    group_breadcrumb_level_1 := some "", group_breadcrumb_level_2 := some "",
    group_breadcrumb_level_3 := some "", group_breadcrumb_level_4 := some "" }

/-- Body of the enrichment loop of `enrich_activities_with_user_details`
(src/fetch_computer_time_data.py lines 245-273), given the `user_info` dict:
`if user_id and user_id in user_info` matches the user (a missing or empty
`user_id` is falsy); a matched user always gets `email` and `display_name`;
the group fields are written only when the user's group dict is non-empty, in
which case its first entry is used and the four breadcrumb levels take the
path entries, padded with empty strings. -/
def enrichActivity (userInfo : String → Option UserInfo) (a : Activity) : Activity :=
  match a.user_id with
  | none => setDefaultEnrichment a
  | some uid =>
    if uid = "" then setDefaultEnrichment a
    else
      match userInfo uid with
      | none => setDefaultEnrichment a
      | some info =>
        let a1 := { a with email := some info.email, display_name := some info.display_name }
        match info.groups with
        | [] => a1
        | (_, ga) :: _ =>
          { a1 with
            group_name := some ga.group_name,
            group_breadcrumb_level_1 := some (ga.breadcrumb_path.getD 0 ""),
            group_breadcrumb_level_2 := some (ga.breadcrumb_path.getD 1 ""),
            group_breadcrumb_level_3 := some (ga.breadcrumb_path.getD 2 ""),
            group_breadcrumb_level_4 := some (ga.breadcrumb_path.getD 3 "") }

/-- Enrichment over the whole activity batch
(src/fetch_computer_time_data.py lines 244-276). -/
def enrichActivitiesWithUserDetails (userInfo : String → Option UserInfo)
    (activities : List Activity) : List Activity :=
  activities.map (enrichActivity userInfo)

/-- User dict holding one user `"7"` who belongs to zero groups. -/
def groupFreeUserInfo : String → Option UserInfo :=
  fun uid => if uid = "7" then some ⟨"ann@example.com", "Ann", []⟩ else none

/-- Raw activity of user `"7"` with no enrichment keys present. -/
def rawActivity7 : Activity :=
  ⟨some "7", none, none, none, none, none, none, none, "k"⟩

/-- C4 counterexample: enriching an activity of a matched user who belongs to
zero groups leaves `group_name` (and every breadcrumb level) absent — not set
to the empty string as the claim requires — while `email` shows the user was
matched. -/
theorem C4_counterexample_zero_groups_fields_omitted :
    (enrichActivity groupFreeUserInfo rawActivity7).group_name = none ∧
    (enrichActivity groupFreeUserInfo rawActivity7).group_breadcrumb_level_1 = none ∧
    (enrichActivity groupFreeUserInfo rawActivity7).group_breadcrumb_level_2 = none ∧
    (enrichActivity groupFreeUserInfo rawActivity7).group_breadcrumb_level_3 = none ∧
    (enrichActivity groupFreeUserInfo rawActivity7).group_breadcrumb_level_4 = none ∧
    (enrichActivity groupFreeUserInfo rawActivity7).email = some "ann@example.com" :=
  ⟨rfl, rfl, rfl, rfl, rfl, rfl⟩

/-- C4 (amended): an unmatched user (missing, empty, or unknown `user_id`)
gets every enrichment field set to the empty string; a matched user belonging
to zero groups gets only `email` and `display_name` set — `group_name` and
the four breadcrumb levels are left untouched (so they stay absent when the
raw record lacks them), not set to the empty string. -/
theorem C4_enrichment_defaults_amended
    (userInfo : String → Option UserInfo) (a : Activity) :
    ((∀ uid, a.user_id = some uid → uid = "" ∨ userInfo uid = none) →
      enrichActivity userInfo a = setDefaultEnrichment a) ∧
    (∀ uid info, a.user_id = some uid → uid ≠ "" → userInfo uid = some info →
      info.groups = [] →
      enrichActivity userInfo a =
        { a with email := some info.email, display_name := some info.display_name }) := by
  constructor
  · intro h
    cases hu : a.user_id with
    | none => simp [enrichActivity, hu]
    | some uid =>
      rcases h uid hu with h1 | h1
      · simp [enrichActivity, hu, h1]
      · by_cases he : uid = ""
        · simp [enrichActivity, hu, he]
        · simp [enrichActivity, hu, he, h1]
  · intro uid info hu hne hinfo hg
    simp [enrichActivity, hu, hne, hinfo, hg]

/-- Closed witness for the amended C4 at the zero-groups instance: user `"7"`
is matched, `email` and `display_name` are filled in, and all group fields
stay exactly as they were on the raw record. -/
theorem C4_enrichment_defaults_amended_witness :
    enrichActivity groupFreeUserInfo rawActivity7 =
      { rawActivity7 with email := some "ann@example.com", display_name := some "Ann" } :=
  (C4_enrichment_defaults_amended groupFreeUserInfo rawActivity7).2
    "7" ⟨"ann@example.com", "Ann", []⟩ rfl (by decide) rfl rfl

/-- Python slicing loop `for i in range(0, len(lst), n): lst[i:i+n]` used for
date batches of 20 (src/common/api.py line 215) and id batches
(lines 160-163, 306-307): successive chunks of `n` elements, last chunk
possibly shorter.  Only called with `n` of 20, 50 or 200 in the source. -/
def chunkList {α : Type} (n : Nat) : List α → List (List α)
  | [] => []
  | x :: xs => (x :: xs).take n :: chunkList n (xs.drop (n - 1))
termination_by l => l.length
decreasing_by
  simp only [List.length_drop, List.length_cons]
  omega

theorem chunkList_flatten_aux {α : Type} (n : Nat) (hn : 0 < n) :
    ∀ (k : Nat) (xs : List α), xs.length ≤ k → (chunkList n xs).flatten = xs := by
  intro k
  induction k with
  | zero =>
    intro xs h
    have : xs = [] := List.length_eq_zero.mp (Nat.le_zero.mp h)
    subst this
    simp [chunkList]
  | succ k ih =>
    intro xs h
    cases xs with
    | nil => simp [chunkList]
    | cons x xs =>
      rw [chunkList, List.flatten_cons]
      have hlen : (xs.drop (n - 1)).length ≤ k := by
        simp only [List.length_drop]
        simp only [List.length_cons] at h
        omega
      rw [ih _ hlen]
      obtain ⟨m, rfl⟩ : ∃ m, n = m + 1 := ⟨n - 1, by omega⟩
      simp only [List.take_succ_cons, Nat.add_sub_cancel, List.cons_append,
        List.cons.injEq, true_and]
      exact List.take_append_drop m xs

theorem chunkList_flatten {α : Type} (n : Nat) (hn : 0 < n) (xs : List α) :
    (chunkList n xs).flatten = xs :=
  chunkList_flatten_aux n hn xs.length xs (Nat.le_refl _)

theorem chunkList_length_le_aux {α : Type} (n : Nat) :
    ∀ (k : Nat) (xs : List α), xs.length ≤ k →
      ∀ c ∈ chunkList n xs, c.length ≤ n := by
  intro k
  induction k with
  | zero =>
    intro xs h c hc
    have : xs = [] := List.length_eq_zero.mp (Nat.le_zero.mp h)
    subst this
    simp [chunkList] at hc
  | succ k ih =>
    intro xs h c hc
    cases xs with
    | nil => simp [chunkList] at hc
    | cons x xs =>
      rw [chunkList] at hc
      rcases List.mem_cons.mp hc with h1 | h1
      · subst h1
        exact List.length_take_le n (x :: xs)
      · have hlen : (xs.drop (n - 1)).length ≤ k := by
          simp only [List.length_drop]
          simp only [List.length_cons] at h
          omega
        exact ih _ hlen c h1

theorem chunkList_length_le {α : Type} (n : Nat) (xs : List α) :
    ∀ c ∈ chunkList n xs, c.length ≤ n :=
  chunkList_length_le_aux n xs.length xs (Nat.le_refl _)

theorem chunkList_append {α : Type} (n : Nat) (hn : 0 < n) (a rest : List α)
    (ha : a.length = n) : chunkList n (a ++ rest) = a :: chunkList n rest := by
  cases a with
  | nil =>
    rw [List.length_nil] at ha
    omega
  | cons x a =>
    rw [List.cons_append, chunkList]
    have ht : (x :: (a ++ rest)).take n = x :: a := by
      rw [← List.cons_append]
      exact List.take_left' ha
    have hd : (a ++ rest).drop (n - 1) = rest := by
      apply List.drop_left'
      simp only [List.length_cons] at ha
      omega
    rw [ht, hd]

theorem chunkList_of_length_le {α : Type} (n : Nat) (xs : List α)
    (h0 : 0 < xs.length) (hle : xs.length ≤ n) : chunkList n xs = [xs] := by
  cases xs with
  | nil => simp at h0
  | cons x xs =>
    rw [chunkList]
    have ht : (x :: xs).take n = x :: xs := List.take_of_length_le hle
    have hd : xs.drop (n - 1) = [] := by
      apply List.drop_of_length_le
      simp only [List.length_cons] at hle
      omega
    rw [ht, hd]
    simp [chunkList]

/-- `TimeCampAPI._get_computer_activities_batched` (src/common/api.py lines
234-264) for a single date batch: with no user filter, an empty filter, or a
single user the request goes out directly; with several users the remote API
needs one call per user id, and the per-user results are concatenated.
`singleReq` abstracts `_get_computer_activities_single_request`, i.e. one
`GET /activity` call with the given dates and optional `user_id` parameter. -/
def getComputerActivitiesBatched {β : Type}
    (singleReq : List String → Option (List Int) → List β)
    (dates : List String) (userIds : Option (List Int)) : List β :=
  match userIds with
  | none => singleReq dates none
  | some [] => singleReq dates (some [])
  | some [u] => singleReq dates (some [u])
  | some us => us.flatMap (fun u => singleReq dates (some [u]))

/-- `TimeCampAPI.get_computer_activities` (src/common/api.py lines 191-232):
more than 20 dates are split into sequential chunks of at most 20 and the
per-chunk results are concatenated; 20 or fewer dates go to the batched call
directly. -/
def getComputerActivities {β : Type}
    (singleReq : List String → Option (List Int) → List β)
    (dates : List String) (userIds : Option (List Int)) : List β :=
  if dates.length > 20 then
    (chunkList 20 dates).flatMap
      (fun batch => getComputerActivitiesBatched singleReq batch userIds)
  else getComputerActivitiesBatched singleReq dates userIds

/-- C7: for any list of more than 20 dates, the fetch equals the
concatenation of the batched fetch over sequential chunks, each chunk has at
most 20 dates, and the chunks concatenate back to the input; in particular a
45-date request (20 + 20 + 5) returns exactly the concatenation of the three
manual requests of 20, 20 and 5 dates. -/
theorem C7_date_batching {β : Type}
    (singleReq : List String → Option (List Int) → List β)
    (userIds : Option (List Int)) (dates d1 d2 d3 : List String)
    (hgt : dates.length > 20)
    (h1 : d1.length = 20) (h2 : d2.length = 20) (h3 : d3.length = 5) :
    getComputerActivities singleReq dates userIds =
      (chunkList 20 dates).flatMap
        (fun batch => getComputerActivitiesBatched singleReq batch userIds) ∧
    (∀ c ∈ chunkList 20 dates, c.length ≤ 20) ∧
    (chunkList 20 dates).flatten = dates ∧
    getComputerActivities singleReq (d1 ++ d2 ++ d3) userIds =
      getComputerActivities singleReq d1 userIds ++
        getComputerActivities singleReq d2 userIds ++
        getComputerActivities singleReq d3 userIds := by
  refine ⟨?_, chunkList_length_le 20 dates, chunkList_flatten 20 (by omega) dates, ?_⟩
  · rw [getComputerActivities, if_pos hgt]
  · have hchunks : chunkList 20 (d1 ++ d2 ++ d3) = [d1, d2, d3] := by
      rw [List.append_assoc, chunkList_append 20 (by omega) d1 (d2 ++ d3) h1,
        chunkList_append 20 (by omega) d2 d3 h2,
        chunkList_of_length_le 20 d3 (by omega) (by omega)]
    have hlen : (d1 ++ d2 ++ d3).length > 20 := by
      simp [h1, h2, h3]
    rw [getComputerActivities, if_pos hlen, hchunks]
    rw [getComputerActivities, if_neg (by omega), getComputerActivities,
      if_neg (by omega), getComputerActivities, if_neg (by omega)]
    simp [List.flatMap_cons, List.append_assoc]

/-- Dates for the closed C7 witness: 20 + 20 + 5 literal date strings. -/
def datesA : List String := List.replicate 20 "2026-01-01"

/-- Second batch of 20 dates for the C7 witness. -/
def datesB : List String := List.replicate 20 "2026-02-01"

/-- Third batch of 5 dates for the C7 witness. -/
def datesC : List String := List.replicate 5 "2026-03-01"

/-- Closed witness for C7: a concrete server echoing the requested dates; the
45-date request equals the three manual batched requests concatenated. -/
theorem C7_date_batching_witness :
    getComputerActivities (fun ds _ => ds) (datesA ++ datesB ++ datesC) none =
      getComputerActivities (fun ds _ => ds) datesA none ++
        getComputerActivities (fun ds _ => ds) datesB none ++
        getComputerActivities (fun ds _ => ds) datesC none :=
  (C7_date_batching (fun ds _ => ds) none (datesA ++ datesB ++ datesC)
    datesA datesB datesC (by simp [datesA, datesB, datesC])
    (by simp [datesA]) (by simp [datesB]) (by simp [datesC])).2.2.2

/-- Code-point lexicographic order on char lists, the order Python uses to
compare timestamp strings in `last_modify >= cutoff_timestamp`. -/
def charListLe : List Char → List Char → Bool
  | [], _ => true
  | _ :: _, [] => false
  | a :: as, b :: bs => if a < b then true else if b < a then false else charListLe as bs

/-- Python string comparison `a <= b`. -/
def strLe (a b : String) : Bool := charListLe a.data b.data

/-- `get_entries_with_last_modified_filter` (src/fetch_timecamp_data.py lines
365-402).  `fetch from to` abstracts `api.get_time_entries(from, to,
include_project=True, include_rates=True, opt_fields="tags,breadcrumps")`;
`yesterday` abstracts `get_yesterday()` and `cutoffOf h` the cutoff timestamp
string `(datetime.now() - timedelta(hours=h)).strftime('%Y-%m-%d %H:%M:%S')`.
A range touching yesterday is returned unfiltered; otherwise, with a truthy
`modified_since_hours` and a non-empty result, only entries with a non-empty
`last_modify` at or after the cutoff are kept (Python string comparison). -/
def getEntriesWithLastModifiedFilter (yesterday : String) (cutoffOf : Nat → String)
    (fetch : String → String → List TimeEntry)
    (fromD toD : String) (modifiedSinceHours : Option Nat) : List TimeEntry :=
  if fromD = yesterday ∨ toD = yesterday then fetch fromD toD
  else
    let entries := fetch fromD toD
    match modifiedSinceHours with
    | none => entries
    | some h =>
      if h ≠ 0 ∧ entries ≠ [] then
        entries.filter (fun e =>
          e.last_modify != "" && strLe (cutoffOf h) e.last_modify)
      else entries

/-- `fetch_incremental_data` (src/fetch_timecamp_data.py lines 404-433):
yesterday is fetched with `modified_since_hours=None`; each of days
`-2 .. -days_back` (`range(2, days_back + 1)`, here `List.range' 2
(daysBack - 1)`) is fetched with `modified_since_hours=48`; all results are
concatenated in that order.  `dayOf i` abstracts
`(datetime.now() - timedelta(days=i)).strftime('%Y-%m-%d')`. -/
def fetchIncrementalData (yesterday : String) (cutoffOf : Nat → String)
    (fetch : String → String → List TimeEntry) (dayOf : Nat → String)
    (daysBack : Nat) : List TimeEntry :=
  getEntriesWithLastModifiedFilter yesterday cutoffOf fetch yesterday yesterday none ++
    (List.range' 2 (daysBack - 1)).flatMap (fun i =>
      getEntriesWithLastModifiedFilter yesterday cutoffOf fetch (dayOf i) (dayOf i) (some 48))

theorem flatMap_congr_mem {α β : Type} (l : List α) (f g : α → List β)
    (h : ∀ a ∈ l, f a = g a) : l.flatMap f = l.flatMap g := by
  induction l with
  | nil => rfl
  | cons x xs ih => simp_all [List.flatMap_cons]

/-- C8: for every `days_back`, the incremental fetch plan takes yesterday's
full fetch unfiltered (no modification filter is applied to day -1) and, for
each day `-2 .. -days_back`, keeps from that day's full fetch only the
entries whose `last_modify` is non-empty and at or after the 48-hour cutoff
(the client-side modified-since filter), concatenating the per-day results in
order. -/
theorem C8_incremental_fetch_plan (yesterday : String) (cutoffOf : Nat → String)
    (fetch : String → String → List TimeEntry) (dayOf : Nat → String) (daysBack : Nat)
    (hday : ∀ i ∈ List.range' 2 (daysBack - 1), dayOf i ≠ yesterday) :
    fetchIncrementalData yesterday cutoffOf fetch dayOf daysBack =
      fetch yesterday yesterday ++
        (List.range' 2 (daysBack - 1)).flatMap (fun i =>
          (fetch (dayOf i) (dayOf i)).filter (fun e =>
            e.last_modify != "" && strLe (cutoffOf 48) e.last_modify)) := by
  unfold fetchIncrementalData
  have hy : getEntriesWithLastModifiedFilter yesterday cutoffOf fetch
      yesterday yesterday none = fetch yesterday yesterday := by
    rw [getEntriesWithLastModifiedFilter, if_pos (Or.inl rfl)]
  rw [hy]
  congr 1
  apply flatMap_congr_mem
  intro i hi
  rw [getEntriesWithLastModifiedFilter, if_neg]
  · by_cases hemp : fetch (dayOf i) (dayOf i) = []
    · simp [hemp]
    · simp only []
      rw [if_pos ⟨by omega, hemp⟩]
  · rintro (h | h) <;> exact hday i hi h

/-- Concrete fetch for the C8 witness: yesterday `"y"` has one entry; any
other day has one entry without a `last_modify` and one modified at `"t9"`. -/
def wFetch : String → String → List TimeEntry := fun fromD _ =>
  if fromD = "y" then [⟨some 1, "t6", "a"⟩]
  else [⟨some 2, "", "b"⟩, ⟨some 3, "t9", "c"⟩]

/-- Day labels for the C8 witness. -/
def wDayOf : Nat → String := fun i => "d" ++ toString i

/-- Closed witness for C8 at `days_back = 3`, with cutoff `"t5"`: yesterday's
entry passes unfiltered; for days -2 and -3 the entry without `last_modify`
is dropped and the one modified at `"t9" >= "t5"` is kept. -/
theorem C8_incremental_fetch_plan_witness :
    fetchIncrementalData "y" (fun _ => "t5") wFetch wDayOf 3 =
      [⟨some 1, "t6", "a"⟩, ⟨some 3, "t9", "c"⟩, ⟨some 3, "t9", "c"⟩] := by
  have h := C8_incremental_fetch_plan "y" (fun _ => "t5") wFetch wDayOf 3 (by decide)
  rw [h]
  decide

/-- Generic association-list lookup, modelling Python dict lookup for schema
fields and application details. -/
def lookupAssoc {α : Type} : List (String × α) → String → Option α
  | [], _ => none
  | (k, v) :: rest, key => if k = key then some v else lookupAssoc rest key

/-- Expected destination schema of `upload_to_bigquery`
(src/destination_googlebigquery.py lines 151-189): field name and BigQuery
type of each of the 31 columns, in source order. -/
def expectedSchemaFields : List (String × String) :=
  [("id", "INTEGER"), ("duration", "STRING"), ("user_id", "STRING"),
   ("user_name", "STRING"), ("task_id", "STRING"), ("task_note", "STRING"),
   ("last_modify", "STRING"), ("date", "DATE"), ("start_time", "STRING"),
   ("end_time", "STRING"), ("locked", "STRING"), ("name", "STRING"),
   ("addons_external_id", "STRING"), ("billable", "INTEGER"),
   ("invoiceId", "STRING"), ("color", "STRING"), ("description", "STRING"),
   ("hasEntryLocationHistory", "BOOLEAN"), ("project_id", "INTEGER"),
   ("project_name", "STRING"), ("total_cost", "FLOAT"),
   ("total_income", "FLOAT"), ("rate_income", "FLOAT"), ("tags", "JSON"),
   ("breadcrumps", "STRING"), ("email", "STRING"), ("group_name", "STRING"),
   ("group_breadcrumb_level_1", "STRING"), ("group_breadcrumb_level_2", "STRING"),
   ("group_breadcrumb_level_3", "STRING"), ("group_breadcrumb_level_4", "STRING")]

/-- Schema-drift check of `upload_to_bigquery`
(src/destination_googlebigquery.py lines 192-203): walk the fields of the
expected schema and flag an update when a field is absent from the existing
table or carries a different type.  Fields present in the existing table but
absent from the expected schema are never examined. -/
def schemaNeedsUpdate (existingFields : List (String × String)) : Bool :=
  expectedSchemaFields.any (fun nf =>
    match lookupAssoc existingFields nf.1 with
    | none => true
    | some t => t != nf.2)

/-- Destination row for the merge: the primary key `id` and an opaque
`payload` standing for all other column values of the record. -/
structure BQRow where
  id : Int
  payload : String
deriving DecidableEq

/-- Destination table state: its schema and its rows. -/
structure BQTable where
  schema : List (String × String)
  rows : List BQRow
deriving DecidableEq

/-- MERGE semantics of `upload_to_bigquery`
(src/destination_googlebigquery.py lines 260-339): a destination row whose
`id` matches a staged row gets every column overwritten with the staged
values (modelled as replacing the whole row); staged rows matching no
destination row are inserted. -/
def mergeRows (target staged : List BQRow) : List BQRow :=
  target.map (fun t =>
    match staged.find? (fun s => s.id == t.id) with
    | some s => s
    | none => t) ++
  staged.filter (fun s => ! target.any (fun t => t.id == s.id))

/-- Table-management and merge phases of `upload_to_bigquery`
(src/destination_googlebigquery.py lines 140-349): a missing table is
created empty with the expected schema; an existing table failing the
schema-drift check is dropped and recreated empty; an existing table passing
the check is kept as is (schema and rows); the staged batch is then merged
in.  `existing` is the destination table state before the load (`none` when
the table does not exist), and the result is its state after the load. -/
def uploadToBigQuery (existing : Option BQTable) (batch : List BQRow) : BQTable :=
  let prepped : BQTable :=
    match existing with
    | none => ⟨expectedSchemaFields, []⟩
    | some t =>
      if schemaNeedsUpdate t.schema then ⟨expectedSchemaFields, []⟩ else t
  ⟨prepped.schema, mergeRows prepped.rows batch⟩

/-- Existing destination table whose column set strictly contains the
expected schema (one extra trailing column) and which holds one prior row. -/
def supersetTable : BQTable :=
  ⟨expectedSchemaFields ++ [("extra_audit_col", "STRING")], [⟨1, "old"⟩]⟩

/-- C9 counterexample: an existing table whose column set differs from the
expected schema (it has an extra column) does not trigger drop-and-recreate
— the drift check only inspects expected fields — so the table, its extra
column and its prior row survive the load untouched. -/
theorem C9_counterexample_superset_schema_kept :
    schemaNeedsUpdate supersetTable.schema = false ∧
    uploadToBigQuery (some supersetTable) [] = supersetTable ∧
    supersetTable.schema ≠ expectedSchemaFields := by
  refine ⟨by decide, by decide, by decide⟩

/-- C9 (amended): drop-and-recreate is triggered exactly when some field of
the expected schema is missing from the existing table or has a different
type there (`schemaNeedsUpdate`); a column set that merely contains extra
fields beyond the expected schema is kept.  When the check does trigger, the
destination is recreated with the expected schema and the prior rows are not
carried over: the post-load table is the expected schema with the batch
merged into an empty table, i.e. exactly the staged batch rows. -/
theorem C9_schema_drift_amended (ex : List (String × String)) (rows batch : List BQRow)
    (h : schemaNeedsUpdate ex = true) :
    uploadToBigQuery (some ⟨ex, rows⟩) batch = ⟨expectedSchemaFields, mergeRows [] batch⟩ ∧
    mergeRows [] batch = batch := by
  constructor
  · simp [uploadToBigQuery, h]
  · simp [mergeRows]

/-- Closed witness for the amended C9: a table whose `id` column has type
STRING (a type mismatch on an expected field) is dropped; after the load the
table has the expected schema and only the staged row — the prior row is
gone. -/
theorem C9_schema_drift_amended_witness :
    uploadToBigQuery (some ⟨[("id", "STRING")], [⟨1, "old"⟩]⟩) [⟨2, "new"⟩] =
      ⟨expectedSchemaFields, [⟨2, "new"⟩]⟩ := by
  have h := C9_schema_drift_amended [("id", "STRING")] [⟨1, "old"⟩] [⟨2, "new"⟩] (by decide)
  rw [h.1, h.2]

/-- `TimeCampAPI.get_applications` (src/common/api.py lines 291-325): the
requested ids are processed in batches of `batch_size`; each batch's response
dict is merged into the accumulator, later batches overriding earlier keys.
`respond batch` abstracts the items of the JSON dict one `GET /application`
call returns for `batch`; the resulting dict maps each key to the last value
any batch response gives it. -/
def getApplications (respond : List String → List (String × String))
    (batchSize : Nat) (ids : List String) : String → Option String :=
  fun k =>
    (((chunkList batchSize ids).flatMap respond).reverse.find?
      (fun p => p.1 == k)).map (fun p => p.2)

/-- `TimeCampAPI.get_applications_with_cache` with `_load_applications_cache`
and `_save_applications_cache` (src/common/api.py lines 327-390): `prior` is
the cache loaded from file; the requested ids missing from it are fetched
through `get_applications`, merged into the cache (fetched values override)
and the cache is saved; the returned dict restricts the updated cache to the
requested ids.  First component: the returned dict; second component: the
cache as saved (unchanged when nothing was missing). -/
def getApplicationsWithCache (respond : List String → List (String × String))
    (prior : String → Option String) (ids : List String) (batchSize : Nat) :
    (String → Option String) × (String → Option String) :=
  let missing := ids.filter (fun i => (prior i).isNone)
  let cacheAfter :=
    if missing ≠ [] then
      fun k =>
        match getApplications respond batchSize missing k with
        | some v => some v
        | none => prior k
    else prior
  (fun k => if k ∈ ids then cacheAfter k else none, cacheAfter)

theorem gawc_result_eq (respond : List String → List (String × String))
    (prior : String → Option String) (ids : List String) (batchSize : Nat) (k : String) :
    (getApplicationsWithCache respond prior ids batchSize).1 k =
      if k ∈ ids then (getApplicationsWithCache respond prior ids batchSize).2 k
      else none := rfl

theorem gawc_cache_eq (respond : List String → List (String × String))
    (prior : String → Option String) (ids : List String) (batchSize : Nat) (k : String) :
    (getApplicationsWithCache respond prior ids batchSize).2 k =
      if ids.filter (fun i => (prior i).isNone) ≠ [] then
        match getApplications respond batchSize
            (ids.filter (fun i => (prior i).isNone)) k with
        | some v => some v
        | none => prior k
      else prior k := by
  by_cases h : ids.filter (fun i => (prior i).isNone) = [] <;>
    simp [getApplicationsWithCache, h]

theorem getApplications_isSome_iff (respond : List String → List (String × String))
    (batchSize : Nat) (ids : List String) (k : String) :
    (getApplications respond batchSize ids k).isSome ↔
      ∃ p ∈ (chunkList batchSize ids).flatMap respond, p.1 = k := by
  unfold getApplications
  simp [List.find?_isSome, List.mem_reverse, beq_iff_eq]

theorem chunkList_subset {α : Type} (n : Nat) (hn : 0 < n) (xs : List α)
    (c : List α) (hc : c ∈ chunkList n xs) (x : α) (hx : x ∈ c) : x ∈ xs := by
  have hf := chunkList_flatten n hn xs
  rw [← hf]
  exact List.mem_flatten.mpr ⟨c, hc, hx⟩

theorem getApplications_missing_none (respond : List String → List (String × String))
    (prior : String → Option String) (ids : List String) (batchSize : Nat) (k : String)
    (hbs : 0 < batchSize)
    (hresp : ∀ batch p, p ∈ respond batch → p.1 ∈ batch)
    (hk : (prior k).isSome) :
    getApplications respond batchSize (ids.filter (fun i => (prior i).isNone)) k = none := by
  cases happ : getApplications respond batchSize
      (ids.filter (fun i => (prior i).isNone)) k with
  | none => rfl
  | some w =>
    exfalso
    have hs : (getApplications respond batchSize
        (ids.filter (fun i => (prior i).isNone)) k).isSome := by
      rw [happ]
      rfl
    rw [getApplications_isSome_iff] at hs
    obtain ⟨p, hp, hpk⟩ := hs
    obtain ⟨c, hc, hpc⟩ := List.mem_flatMap.mp hp
    have h1 : p.1 ∈ c := hresp c p hpc
    have h2 := chunkList_subset batchSize hbs _ c hc _ h1
    have h3 := (List.mem_filter.mp h2).2
    rw [hpk] at h3
    rw [Option.isNone_iff_eq_none] at h3
    rw [h3] at hk
    simp at hk

/-- C10: the dict returned by `get_applications_with_cache` has a value for a
key exactly when the key was requested and is resolvable — already in the
prior cache, or carried by some API response for the batched fetch of the
missing ids — and the saved cache extends the prior one: every id-to-details
entry of the prior cache is still present, unchanged, in the cache after the
call (given the API contract that a response only carries requested ids). -/
theorem C10_application_cache (respond : List String → List (String × String))
    (prior : String → Option String) (ids : List String) (batchSize : Nat)
    (k v : String) (hbs : 0 < batchSize)
    (hresp : ∀ batch p, p ∈ respond batch → p.1 ∈ batch) :
    (((getApplicationsWithCache respond prior ids batchSize).1 k).isSome ↔
      k ∈ ids ∧ ((prior k).isSome ∨
        ∃ p ∈ (chunkList batchSize
            (ids.filter (fun i => (prior i).isNone))).flatMap respond, p.1 = k)) ∧
    (prior k = some v →
      (getApplicationsWithCache respond prior ids batchSize).2 k = some v) := by
  constructor
  · rw [gawc_result_eq]
    by_cases hk : k ∈ ids
    · rw [if_pos hk, gawc_cache_eq]
      by_cases hmiss : ids.filter (fun i => (prior i).isNone) = []
      · have hch : chunkList batchSize (ids.filter (fun i => (prior i).isNone)) = [] := by
          rw [hmiss]
          simp [chunkList]
        rw [if_neg (not_not_intro hmiss)]
        simp [hk, hch]
      · rw [if_pos hmiss]
        cases happ : getApplications respond batchSize
            (ids.filter (fun i => (prior i).isNone)) k with
        | some w =>
          simp only [Option.isSome_some, true_iff]
          refine ⟨hk, Or.inr ?_⟩
          rw [← getApplications_isSome_iff]
          rw [happ]
          rfl
        | none =>
          have hnone : ¬ ∃ p ∈ (chunkList batchSize
              (ids.filter (fun i => (prior i).isNone))).flatMap respond, p.1 = k := by
            rw [← getApplications_isSome_iff respond batchSize]
            rw [happ]
            simp
          show (prior k).isSome ↔ _
          constructor
          · intro h
            exact ⟨hk, Or.inl h⟩
          · rintro ⟨-, h | h⟩
            · exact h
            · exact absurd h hnone
    · rw [if_neg hk]
      simp [hk]
  · intro hv
    rw [gawc_cache_eq]
    by_cases hmiss : ids.filter (fun i => (prior i).isNone) ≠ []
    · rw [if_pos hmiss]
      rw [getApplications_missing_none respond prior ids batchSize k hbs hresp
        (by rw [hv]; rfl)]
      exact hv
    · rw [if_neg hmiss]
      exact hv

/-- Remote application endpoint for the C10 witness: echoes every requested
id with details `"app"`. -/
def wResp : List String → List (String × String) :=
  fun batch => batch.map (fun i => (i, "app"))

/-- Prior cache for the C10 witness: only id `"1"` is cached. -/
def wPrior : String → Option String :=
  fun k => if k = "1" then some "cached" else none

/-- Closed witness for C10: requesting `["1", "2"]` against a cache holding
only `"1"` keeps the cached entry unchanged in the saved cache, and resolves
the missing id `"2"` through the API fetch. -/
theorem C10_application_cache_witness :
    (getApplicationsWithCache wResp wPrior ["1", "2"] 200).2 "1" = some "cached" ∧
    ((getApplicationsWithCache wResp wPrior ["1", "2"] 200).1 "2").isSome = true := by
  have hresp : ∀ batch p, p ∈ wResp batch → p.1 ∈ batch := by
    intro batch p hp
    simp only [wResp, List.mem_map] at hp
    obtain ⟨i, hi, rfl⟩ := hp
    exact hi
  constructor
  · exact (C10_application_cache wResp wPrior ["1", "2"] 200 "1" "cached"
      (by omega) hresp).2 rfl
  · have hfil : (["1", "2"] : List String).filter (fun i => (wPrior i).isNone) = ["2"] := by
      decide
    have hch : chunkList 200 ((["1", "2"] : List String).filter
        (fun i => (wPrior i).isNone)) = [["2"]] := by
      rw [hfil]
      exact chunkList_of_length_le 200 ["2"] (by decide) (by decide)
    have h2 := (C10_application_cache wResp wPrior ["1", "2"] 200 "2" "x"
      (by omega) hresp).1.mpr
      ⟨by decide, Or.inr ⟨("2", "app"), by rw [hch]; simp [wResp], rfl⟩⟩
    exact h2

end Timecamp
